import Mathlib

/-!
Verification of the MCP SuperAssistant Proxy gateway (src/index.ts).

We shallowly embed the parts of the gateway that the checked properties
talk about: JavaScript string splitting (`String.prototype.split` with and
without a limit), the catalog/router handlers (`tools/list`, `tools/call`,
`resources/list`, `resources/read`), the transport-error classifier
`categorizeError`, and the modern (Streamable HTTP) session manager's
POST/GET/DELETE handlers as a labelled transition system.

Strings are embedded as `List Char` so that the splitting semantics can be
reasoned about by structural induction.
-/

namespace MCPProxy

/-- JavaScript strings, embedded as lists of characters. -/
abbrev Str := List Char

/-! ## JavaScript `split` on a single-character separator

`name.split('.')` scans left to right and cuts at every occurrence of the
separator.  `splitCh` mirrors this for a one-character separator; it never
returns the empty list (JS `''.split('.')` is `['']`). -/

def splitCh (sep : Char) : Str → List Str
  | [] => [[]]
  | c :: rest =>
    if c = sep then
      [] :: splitCh sep rest
    else
      match splitCh sep rest with
      | [] => [[c]]
      | h :: t => (c :: h) :: t

/-- Inverse of `splitCh`: interleave the separator back (JS `Array.join`). -/
def joinCh (sep : Char) : List Str → Str
  | [] => []
  | [x] => x
  | x :: xs => x ++ sep :: joinCh sep xs

theorem splitCh_ne_nil (sep : Char) (l : Str) : splitCh sep l ≠ [] := by
  cases l with
  | nil => simp [splitCh]
  | cons c rest =>
    simp only [splitCh]
    split
    · simp
    · split <;> simp

theorem joinCh_splitCh (sep : Char) (l : Str) :
    joinCh sep (splitCh sep l) = l := by
  induction l with
  | nil => rfl
  | cons c rest ih =>
    simp only [splitCh]
    split
    · rename_i hc
      subst hc
      rcases h : splitCh c rest with _ | ⟨h1, t1⟩
      · exact absurd h (splitCh_ne_nil c rest)
      · rw [h] at ih
        simp [joinCh, ← ih]
    · rcases h : splitCh sep rest with _ | ⟨h1, t1⟩
      · exact absurd h (splitCh_ne_nil sep rest)
      · rw [h] at ih
        cases t1 with
        | nil => simp_all [joinCh]
        | cons t1h t1t => simp_all [joinCh]

/-- Splitting a string of the form `U ++ sep ++ R` where `U` is free of the
separator cuts exactly at that first separator occurrence. -/
theorem splitCh_append (sep : Char) (U R : Str) (hU : sep ∉ U) :
    splitCh sep (U ++ sep :: R) = U :: splitCh sep R := by
  induction U with
  | nil => simp [splitCh]
  | cons c U' ih =>
    have hc : c ≠ sep := fun h => hU (h ▸ List.mem_cons_self c U')
    have hU' : sep ∉ U' := fun h => hU (List.mem_cons_of_mem c h)
    simp only [List.cons_append, splitCh, if_neg hc, List.append_eq]
    rw [ih hU']

/-- Prefix-before-first-separator injectivity: if neither `U₁` nor `U₂`
contains the separator, gluing with the separator is injective. -/
theorem sep_glue_inj (sep : Char) (U₁ U₂ a b : Str)
    (h₁ : sep ∉ U₁) (h₂ : sep ∉ U₂)
    (h : U₁ ++ sep :: a = U₂ ++ sep :: b) : U₁ = U₂ ∧ a = b := by
  have hs := congrArg (splitCh sep) h
  rw [splitCh_append sep U₁ a h₁, splitCh_append sep U₂ b h₂] at hs
  injection hs with hU _
  subst hU
  have h2 := List.append_cancel_left h
  injection h2 with _ h3
  exact ⟨rfl, h3⟩

/-! ## JavaScript `split` on the three-character separator `'://'`

`uri.split('://')` scans left to right and cuts at every occurrence of the
separator.  Because the separator's first character differs from its later
characters, an occurrence can never straddle the boundary between a
separator-free prefix and an appended separator. -/

def splitUri : Str → List Str
  | [] => [[]]
  | [c] => [[c]]
  | [c, d] => [[c, d]]
  | c :: d :: e :: rest =>
    if c = ':' ∧ d = '/' ∧ e = '/' then
      [] :: splitUri rest
    else
      match splitUri (d :: e :: rest) with
      | [] => [[c]]
      | h :: t => (c :: h) :: t

/-- Inverse of `splitUri`: JS `uriParts.join('://')`. -/
def joinUri : List Str → Str
  | [] => []
  | [x] => x
  | x :: xs => x ++ ':' :: '/' :: '/' :: joinUri xs

/-- `true` iff the string contains no occurrence of `'://'`. -/
def noUriSep : Str → Bool
  | c :: d :: e :: rest =>
    if c = ':' ∧ d = '/' ∧ e = '/' then false else noUriSep (d :: e :: rest)
  | _ => true

theorem splitUri_ne_nil (l : Str) : splitUri l ≠ [] := by
  match l with
  | [] => simp [splitUri]
  | [c] => simp [splitUri]
  | [c, d] => simp [splitUri]
  | c :: d :: e :: rest =>
    simp only [splitUri]
    split
    · simp
    · split <;> simp

theorem joinUri_splitUri (l : Str) : joinUri (splitUri l) = l := by
  induction l using splitUri.induct with
  | case1 => rfl
  | case2 c => rfl
  | case3 c d => rfl
  | case4 c d e rest hsep ih =>
    obtain ⟨hc, hd, he⟩ := hsep
    subst hc; subst hd; subst he
    have hrw : splitUri (':' :: '/' :: '/' :: rest) = [] :: splitUri rest := by
      simp [splitUri]
    rw [hrw]
    rcases h : splitUri rest with _ | ⟨h1, t1⟩
    · exact absurd h (splitUri_ne_nil rest)
    · rw [h] at ih
      simp [joinUri, ih]
  | case5 c d e rest hsep hnil ih =>
    exact absurd hnil (splitUri_ne_nil _)
  | case6 c d e rest hsep h1 t1 hspl ih =>
    have hrw : splitUri (c :: d :: e :: rest) = (c :: h1) :: t1 := by
      simp only [splitUri, if_neg hsep, hspl]
    rw [hrw, hspl] at *
    cases t1 <;> simp_all [joinUri]

/-- Splitting `U ++ "://" ++ R` where `U` contains no `'://'` cuts exactly at
the appended separator: the separator cannot straddle the boundary because
its first character `':'` differs from `'/'`. -/
theorem splitUri_append (U R : Str) (hU : noUriSep U = true) :
    splitUri (U ++ ':' :: '/' :: '/' :: R) = U :: splitUri R := by
  induction U using noUriSep.induct with
  | case1 c d e rest hsep =>
    simp only [noUriSep, if_pos hsep] at hU
    exact Bool.noConfusion hU
  | case2 c d e rest hsep ih =>
    simp only [noUriSep, if_neg hsep] at hU
    have hrec := ih hU
    simp only [List.cons_append] at hrec ⊢
    rw [splitUri, if_neg hsep, hrec]
  | case3 l hl =>
    match l, hl with
    | [], _ => simp [splitUri]
    | [c], _ =>
      have hne : ¬(c = ':' ∧ ':' = '/' ∧ '/' = '/') := by
        rintro ⟨-, h2, -⟩; exact absurd h2 (by decide)
      have h0 : splitUri (':' :: '/' :: '/' :: R) = [] :: splitUri R := by
        simp [splitUri]
      simp only [List.cons_append, List.nil_append]
      rw [splitUri, if_neg hne, h0]
    | [c, d], _ =>
      have hne1 : ¬(c = ':' ∧ d = '/' ∧ ':' = '/') := by
        rintro ⟨-, -, h3⟩; exact absurd h3 (by decide)
      have hne2 : ¬(d = ':' ∧ ':' = '/' ∧ '/' = '/') := by
        rintro ⟨-, h2, -⟩; exact absurd h2 (by decide)
      have h0 : splitUri (':' :: '/' :: '/' :: R) = [] :: splitUri R := by
        simp [splitUri]
      simp only [List.cons_append, List.nil_append]
      rw [splitUri, if_neg hne1, splitUri, if_neg hne2, h0]
    | c :: d :: e :: rest, hl => exact (hl c d e rest rfl).elim

/-! ## JavaScript values and `typeof`

Tool-call arguments are JSON values.  The gateway inspects only the
top-level `serverName` field of the arguments object (everything else is
forwarded opaquely), so nested object/array payloads are represented by
payload-free constructors. -/

inductive JsValue where
  | undef
  | null
  | str (s : Str)
  | num (n : Int)
  | boolean (b : Bool)
  | obj
  | arr
  deriving DecidableEq, Inhabited

/-- JavaScript `typeof`; note `typeof null === 'object'`. -/
def jsTypeof : JsValue → Str
  | .undef => "undefined".data
  | .null => "object".data
  | .str _ => "string".data
  | .num _ => "number".data
  | .boolean _ => "boolean".data
  | .obj => "object".data
  | .arr => "object".data

/-- JavaScript `a || b` for a string-or-absent value: `undefined` and the
empty string are falsy. -/
def jsOrStr (a : Option Str) (b : Str) : Str :=
  match a with
  | none => b
  | some s => if s = [] then b else s

/-! ## Data model: connected upstream servers (`ConnectedServer`)

Mirrors the `ConnectedServer` interface of `src/index.ts`: the upstream's
name, its `config.type` (flattened to the one config field the handlers
read), and the tool/resource/prompt catalogs cached at connect time.
Prompt entries are kept as their names; tool input schemas and prompt
argument lists are opaque payloads the router never inspects. -/

structure ToolDef where
  name : Str
  description : Option Str
  deriving DecidableEq, Inhabited

structure ResourceDef where
  uri : Str
  name : Option Str
  description : Option Str
  mimeType : Option Str
  deriving DecidableEq, Inhabited

structure ConnectedServer where
  name : Str
  configType : Option Str
  tools : List ToolDef
  resources : List ResourceDef
  prompts : List Str
  deriving DecidableEq, Inhabited

/-- The `connectedServers` map, as an association list in insertion order
(JS `Map` iteration order). -/
abbrev ServersMap := List (Str × ConnectedServer)

/-- `this.connectedServers.get(serverName)`. -/
def lookupServer : ServersMap → Str → Option ConnectedServer
  | [], _ => none
  | p :: rest, n => if p.1 = n then some p.2 else lookupServer rest n

def listServersName : Str := "list_servers".data
def getServerInfoName : Str := "get_server_info".data

/-! ## `tools/list` handler -/

/-- One entry of the `tools/list` result (input schemas are opaque). -/
structure PublicTool where
  name : Str
  description : Str
  deriving DecidableEq, Inhabited

def listServersTool : PublicTool :=
  ⟨listServersName, "List all connected MCP servers and their capabilities".data⟩

def getServerInfoTool : PublicTool :=
  ⟨getServerInfoName, "Get detailed information about a specific server".data⟩

/-- The `ListToolsRequestSchema` handler: every upstream tool under the name
`"<server>.<tool>"`, then the two management tools. -/
def listToolsHandler (servers : ServersMap) : List PublicTool :=
  (servers.flatMap fun p =>
    p.2.tools.map fun t =>
      ⟨p.1 ++ '.' :: t.name,
       '[' :: p.1 ++ ']' :: ' ' :: jsOrStr t.description t.name⟩)
  ++ [listServersTool, getServerInfoTool]

/-! ## `tools/call` handler -/

/-- One element of the `list_servers` result array. -/
structure ServerSummary where
  name : Str
  configType : Option Str
  tools : Nat
  resources : Nat
  prompts : Nat
  toolNames : List Str
  deriving DecidableEq, Inhabited

def mkServerSummaries (servers : ServersMap) : List ServerSummary :=
  servers.map fun p =>
    ⟨p.1, p.2.configType, p.2.tools.length, p.2.resources.length,
     p.2.prompts.length, p.2.tools.map fun t => p.1 ++ '.' :: t.name⟩

/-- The `get_server_info` result payload (serialized with
`JSON.stringify` in the source; kept structured here). -/
structure ServerInfo where
  name : Str
  configType : Option Str
  tools : List ToolDef
  resources : List ResourceDef
  prompts : List Str
  deriving DecidableEq, Inhabited

/-- Result of the `CallToolRequestSchema` handler.  `localText` is a result
produced by the gateway itself (`content: [{type:'text', text}]` with the
given `isError` flag); `forward` means the call was delegated to
`server.client.callTool({name: tool, arguments: args})` of the named
upstream.  The two management results carry their structured payloads. -/
inductive CallOutcome where
  | listServersResult (info : List ServerSummary)
  | serverInfoResult (info : ServerInfo)
  | localText (text : Str) (isError : Bool)
  | forward (server : Str) (tool : Str) (args : List (Str × JsValue))
  deriving DecidableEq, Inhabited

/-- `args?.serverName`: `undefined` when the arguments object is absent or
lacks the field. -/
def getServerNameArg : Option (List (Str × JsValue)) → JsValue
  | none => .undef
  | some fields =>
    match fields.find? (fun f => f.1 = "serverName".data) with
    | some f => f.2
    | none => .undef

def invalidToolNameMsg : Str :=
  "Invalid tool name format. Use server_name.tool_name".data

def serverNotFoundMsg (serverName : Str) : Str :=
  "Server \x27".data ++ serverName ++ "\x27 not found".data

def invalidServerNameMsg (v : JsValue) : Str :=
  "Invalid serverName parameter. Expected string, got ".data ++ jsTypeof v

/-- The `CallToolRequestSchema` handler of `src/index.ts` (identical in
`setupServerHandlers` and `copyServerHandlers`): the two management tools,
then delegation via `const [serverName, toolName] = name.split('.', 2)` —
JavaScript's `split` with a limit truncates, it does not keep a remainder —
with falsiness checks `!serverName || !toolName` and a map lookup. -/
def callToolHandler (servers : ServersMap) (name : Str)
    (args : Option (List (Str × JsValue))) : CallOutcome :=
  if name = listServersName then
    .listServersResult (mkServerSummaries servers)
  else if name = getServerInfoName then
    match getServerNameArg args with
    | .str serverName =>
      match lookupServer servers serverName with
      | none => .localText (serverNotFoundMsg serverName) true
      | some server =>
        .serverInfoResult
          ⟨server.name, server.configType, server.tools, server.resources, server.prompts⟩
    | v => .localText (invalidServerNameMsg v) true
  else
    let parts := (splitCh '.' name).take 2
    let serverName := parts.headD []
    if serverName = [] ∨ parts[1]? = none ∨ parts[1]? = some [] then
      .localText invalidToolNameMsg true
    else
      match lookupServer servers serverName with
      | none => .localText (serverNotFoundMsg serverName) true
      | some _ => .forward serverName (parts[1]?.getD []) (args.getD [])

/-! ## `resources/list` and `resources/read` handlers -/

structure PublicResource where
  uri : Str
  name : Str
  description : Option Str
  mimeType : Option Str
  deriving DecidableEq, Inhabited

/-- The `ListResourcesRequestSchema` handler: every upstream resource URI
exposed as `"<server>://<original-uri>"`. -/
def listResourcesHandler (servers : ServersMap) : List PublicResource :=
  servers.flatMap fun p =>
    p.2.resources.map fun r =>
      ⟨p.1 ++ ':' :: '/' :: '/' :: r.uri,
       '[' :: p.1 ++ ']' :: ' ' :: jsOrStr r.name r.uri,
       r.description, r.mimeType⟩

inductive ReadOutcome where
  | forward (server : Str) (originalUri : Str)
  | errorNotFound (serverName : Str)
  deriving DecidableEq, Inhabited

/-- The `ReadResourceRequestSchema` handler:
`const [serverName, ...uriParts] = uri.split('://')` followed by
`uriParts.join('://')`, a lookup, and delegation to
`server.client.readResource({uri: originalUri})`. -/
def readResourceHandler (servers : ServersMap) (uri : Str) : ReadOutcome :=
  let parts := splitUri uri
  let serverName := parts.headD []
  let originalUri := joinUri parts.tail
  match lookupServer servers serverName with
  | none => .errorNotFound serverName
  | some _ => .forward serverName originalUri

/-! ## Transport-error classifier `categorizeError` -/

inductive ErrCategory
  | transient
  | critical
  | unknown
  deriving DecidableEq, Inhabited

/-- A JavaScript error value as `categorizeError` inspects it: its optional
`code` and `status` fields (`none` for absent fields). -/
structure JsError where
  code : Option Str
  status : Option Int
  deriving DecidableEq, Inhabited

def transientErrorCodes : List Str :=
  ["ECONNRESET", "ETIMEDOUT", "ENOTFOUND", "EPIPE"].map String.data

def criticalErrorCodes : List Str :=
  ["ECONNREFUSED", "EACCES", "EMFILE"].map String.data

/-- JS truthiness of `error.code`: absent or the empty string is falsy. -/
def strFieldTruthy : Option Str → Bool
  | none => false
  | some s => !s.isEmpty

/-- JS truthiness of `error.status`: absent or `0` is falsy. -/
def intFieldTruthy : Option Int → Bool
  | none => false
  | some n => n != 0

/-- `categorizeError` from `src/index.ts`: recognized `error.code` values
first; otherwise the HTTP `error.status` ranges; otherwise `unknown`.
A falsy `error` (modelled `none`) is `unknown`. -/
def categorizeError (err : Option JsError) : ErrCategory :=
  match err with
  | none => .unknown
  | some e =>
    let byCode : Option ErrCategory :=
      if strFieldTruthy e.code then
        let c := e.code.getD []
        if c ∈ transientErrorCodes then some .transient
        else if c ∈ criticalErrorCodes then some .critical
        else none
      else none
    match byCode with
    | some r => r
    | none =>
      if intFieldTruthy e.status then
        let s := e.status.getD 0
        if 500 ≤ s ∧ s < 600 then .transient
        else if 400 ≤ s ∧ s < 500 then .critical
        else .unknown
      else .unknown

/-! ## Modern (Streamable HTTP) session manager

The `/mcp` POST/GET/DELETE handlers of `src/index.ts`, embedded as a
labelled transition system.  Each HTTP handler is split into an *enter*
event (everything up to `await transport.handleRequest(...)`, which either
rejects the request immediately or registers an in-flight request) and an
*exit* event (the `finally` block).  The in-flight multiset records which
exit events are still pending; `usedIds` records every session id the
`randomUUID` generator has handed out. -/

structure Session where
  createdAt : Nat
  lastActivity : Nat
  activeRequests : Int
  deriving DecidableEq, Inhabited

inductive ReqKind
  | post
  | get
  | del
  deriving DecidableEq, Inhabited

structure GwState where
  sessions : List (Str × Session)
  inflight : List (Str × ReqKind)
  usedIds : List Str
  deriving DecidableEq, Inhabited

/-- Immediate HTTP response bodies produced by the `/mcp` route handlers:
either a JSON-RPC error envelope `{jsonrpc:'2.0', error:{code, message},
id:null}` or a plain text body (`res.send('...')`). -/
inductive Body where
  | jsonRpcError (code : Int) (message : Str)
  | text (message : Str)
  deriving DecidableEq, Inhabited

def Body.isJsonRpcEnvelope : Body → Bool
  | .jsonRpcError _ _ => true
  | .text _ => false

structure HttpResp where
  status : Nat
  body : Body
  deriving DecidableEq, Inhabited

def lookupSession : List (Str × Session) → Str → Option Session
  | [], _ => none
  | p :: rest, n => if p.1 = n then some p.2 else lookupSession rest n

/-- Field update of one session in the map (JS mutates the stored object). -/
def updateSession (m : List (Str × Session)) (sid : Str) (f : Session → Session) :
    List (Str × Session) :=
  m.map fun p => if p.1 = sid then (p.1, f p.2) else p

/-- `delete this.transports.streamable[sessionId]`. -/
def removeSession (m : List (Str × Session)) (sid : Str) : List (Str × Session) :=
  m.filter fun p => !decide (p.1 = sid)

def tooManyConcurrentMsg : Str :=
  "Too many concurrent requests for this session".data

def tooManySessionsMsg : Str :=
  "Service temporarily unavailable: Too many active sessions".data

def badRequestMsg : Str :=
  "Bad Request: No valid session ID provided or not an initialize request".data

def invalidSessionMsg : Str :=
  "Invalid or missing session ID".data

/-- The hard-coded global cap on concurrent modern sessions. -/
def maxStreamableSessions : Nat := 100

/-- Default of the `maxConcurrentRequestsPerSession` CLI option. -/
def defaultMaxConcurrentRequestsPerSession : Int := 10

inductive Ev where
  | postEnter (now : Nat) (sessionId : Option Str) (isInit : Bool) (freshSid : Str)
  | postExit (sessionId : Option Str)
  | getEnter (now : Nat) (sessionId : Option Str)
  | getExit (sid : Str)
  | deleteEnter (now : Nat) (sessionId : Option Str)
  | deleteExit (sid : Str)
  deriving DecidableEq, Inhabited

/-- One step of the session manager.  The first component is `some r` when
the handler responded immediately without touching the transport (the
reject/invalid branches); `none` means the request proceeded (enter
events) or was an exit path (the `finally` blocks, whose response is
written by the transport). -/
def stepEv (maxConc : Int) (st : GwState) : Ev → Option HttpResp × GwState
  | .postEnter now sessionId? isInit freshSid =>
    match sessionId? with
    | some sid =>
      match lookupSession st.sessions sid with
      | some s =>
        if maxConc ≤ s.activeRequests then
          (some ⟨429, .jsonRpcError (-32000) tooManyConcurrentMsg⟩, st)
        else
          (none, { st with
            sessions := updateSession st.sessions sid fun s =>
              { s with lastActivity := now, activeRequests := s.activeRequests + 1 },
            inflight := (sid, .post) :: st.inflight })
      | none => (some ⟨400, .jsonRpcError (-32000) badRequestMsg⟩, st)
    | none =>
      if isInit then
        if maxStreamableSessions ≤ st.sessions.length then
          (some ⟨503, .jsonRpcError (-32000) tooManySessionsMsg⟩, st)
        else
          (none, { st with
            sessions := st.sessions ++ [(freshSid, ⟨now, now, 1⟩)],
            usedIds := freshSid :: st.usedIds })
      else (some ⟨400, .jsonRpcError (-32000) badRequestMsg⟩, st)
  | .postExit sessionId? =>
    match sessionId? with
    | some sid =>
      match lookupSession st.sessions sid with
      | some _ =>
        (none, { st with
          sessions := updateSession st.sessions sid fun s =>
            { s with activeRequests := s.activeRequests - 1 },
          inflight := st.inflight.erase (sid, .post) })
      | none => (none, { st with inflight := st.inflight.erase (sid, .post) })
    | none => (none, st)
  | .getEnter now sessionId? =>
    match sessionId? with
    | some sid =>
      match lookupSession st.sessions sid with
      | some s =>
        if maxConc ≤ s.activeRequests then
          (some ⟨429, .text tooManyConcurrentMsg⟩, st)
        else
          (none, { st with
            sessions := updateSession st.sessions sid fun s =>
              { s with lastActivity := now, activeRequests := s.activeRequests + 1 },
            inflight := (sid, .get) :: st.inflight })
      | none => (some ⟨400, .text invalidSessionMsg⟩, st)
    | none => (some ⟨400, .text invalidSessionMsg⟩, st)
  | .getExit sid =>
    match lookupSession st.sessions sid with
    | some _ =>
      (none, { st with
        sessions := updateSession st.sessions sid fun s =>
          { s with activeRequests := s.activeRequests - 1 },
        inflight := st.inflight.erase (sid, .get) })
    | none => (none, { st with inflight := st.inflight.erase (sid, .get) })
  | .deleteEnter now sessionId? =>
    match sessionId? with
    | some sid =>
      match lookupSession st.sessions sid with
      | some _ =>
        (none, { st with
          sessions := updateSession st.sessions sid fun s =>
            { s with lastActivity := now, activeRequests := s.activeRequests + 1 },
          inflight := (sid, .del) :: st.inflight })
      | none => (some ⟨400, .text invalidSessionMsg⟩, st)
    | none => (some ⟨400, .text invalidSessionMsg⟩, st)
  | .deleteExit sid =>
    (none, { st with
      sessions := removeSession st.sessions sid,
      inflight := st.inflight.erase (sid, .del) })

/-- Which events can actually occur on a state: exit events only for a
pending in-flight request, and a session id produced by `randomUUID` is
never one already handed out. -/
def validEv (st : GwState) : Ev → Bool
  | .postEnter _ sessionId? isInit freshSid =>
    match sessionId?, isInit with
    | none, true => decide (freshSid ∉ st.usedIds)
    | _, _ => true
  | .postExit sessionId? =>
    match sessionId? with
    | some sid => decide ((sid, ReqKind.post) ∈ st.inflight)
    | none => true
  | .getEnter _ _ => true
  | .getExit sid => decide ((sid, ReqKind.get) ∈ st.inflight)
  | .deleteEnter _ _ => true
  | .deleteExit sid => decide ((sid, ReqKind.del) ∈ st.inflight)

/-- The empty gateway state at startup. -/
def startState : GwState := ⟨[], [], []⟩

/-- States reachable from startup by valid events. -/
inductive Reachable (maxConc : Int) : GwState → Prop where
  | start : Reachable maxConc startState
  | step {st : GwState} {e : Ev} (h : Reachable maxConc st)
      (hv : validEv st e = true) : Reachable maxConc (stepEv maxConc st e).2

/-- `TraceFrom maxConc st st'`: `st'` is reachable from `st` by valid
events. -/
inductive TraceFrom (maxConc : Int) : GwState → GwState → Prop where
  | refl (st : GwState) : TraceFrom maxConc st st
  | step {st₁ st₂ : GwState} {e : Ev} (h : TraceFrom maxConc st₁ st₂)
      (hv : validEv st₂ e = true) : TraceFrom maxConc st₁ (stepEv maxConc st₂ e).2

def sessionKeys (st : GwState) : List Str := st.sessions.map Prod.fst

/-- Number of in-flight requests recorded for a session id. -/
def tokenCount (infl : List (Str × ReqKind)) (sid : Str) : Nat :=
  infl.countP fun p => decide (p.1 = sid)

/-! ## Helper lemmas about the session map and in-flight multiset -/

theorem lookupSession_eq_none_iff (m : List (Str × Session)) (sid : Str) :
    lookupSession m sid = none ↔ sid ∉ m.map Prod.fst := by
  induction m with
  | nil => simp [lookupSession]
  | cons p rest ih =>
    by_cases hk : p.1 = sid
    · simp [lookupSession, hk]
    · have hk' : sid ≠ p.1 := fun h => hk h.symm
      simp [lookupSession, hk, hk', ih]

theorem lookupSession_mem_keys {m : List (Str × Session)} {sid : Str} {s : Session}
    (h : lookupSession m sid = some s) : sid ∈ m.map Prod.fst := by
  by_contra hmem
  rw [← lookupSession_eq_none_iff] at hmem
  rw [h] at hmem
  exact Option.noConfusion hmem

theorem lookupSession_update_self (m : List (Str × Session)) (sid : Str)
    (f : Session → Session) :
    lookupSession (updateSession m sid f) sid = (lookupSession m sid).map f := by
  induction m with
  | nil => simp [lookupSession, updateSession]
  | cons p rest ih =>
    by_cases hk : p.1 = sid
    · simp [lookupSession, updateSession, hk]
    · simp only [updateSession, List.map_cons, if_neg hk] at *
      simp [lookupSession, hk, ih, updateSession]

theorem lookupSession_update_ne (m : List (Str × Session)) (sid sid' : Str)
    (f : Session → Session) (h : sid' ≠ sid) :
    lookupSession (updateSession m sid f) sid' = lookupSession m sid' := by
  induction m with
  | nil => simp [lookupSession, updateSession]
  | cons p rest ih =>
    by_cases hk : p.1 = sid
    · have hk' : ¬p.1 = sid' := fun hc => h (hc.symm.trans hk)
      simp only [updateSession, List.map_cons, if_pos hk]
      simp only [lookupSession, if_neg hk']
      exact ih
    · by_cases hk' : p.1 = sid'
      · simp only [updateSession, List.map_cons, if_neg hk]
        simp [lookupSession, hk']
      · simp only [updateSession, List.map_cons, if_neg hk]
        simp only [lookupSession, if_neg hk']
        exact ih

theorem keys_updateSession (m : List (Str × Session)) (sid : Str) (f : Session → Session) :
    (updateSession m sid f).map Prod.fst = m.map Prod.fst := by
  induction m with
  | nil => rfl
  | cons p rest ih =>
    by_cases hk : p.1 = sid <;>
      simp only [updateSession, List.map_cons, if_pos, if_neg, hk, ite_true, ite_false] <;>
      simp_all [updateSession]

theorem mem_updateSession {m : List (Str × Session)} {sid : Str} {f : Session → Session}
    {p : Str × Session} (h : p ∈ updateSession m sid f) :
    ∃ q ∈ m, p = if q.1 = sid then (q.1, f q.2) else q := by
  rcases List.mem_map.1 h with ⟨q, hq, hpq⟩
  exact ⟨q, hq, hpq.symm⟩

theorem keys_removeSession (m : List (Str × Session)) (sid : Str) :
    (removeSession m sid).map Prod.fst = (m.map Prod.fst).filter (fun k => !decide (k = sid)) := by
  induction m with
  | nil => rfl
  | cons p rest ih =>
    by_cases hk : p.1 = sid <;>
      simp [removeSession, List.filter_cons, hk] <;> simp_all [removeSession]

theorem mem_removeSession {m : List (Str × Session)} {sid : Str} {p : Str × Session}
    (h : p ∈ removeSession m sid) : p ∈ m ∧ p.1 ≠ sid := by
  have := List.mem_filter.1 h
  refine ⟨this.1, ?_⟩
  simpa using this.2

theorem lookupSession_removeSession_self (m : List (Str × Session)) (sid : Str) :
    lookupSession (removeSession m sid) sid = none := by
  rw [lookupSession_eq_none_iff, keys_removeSession]
  intro h
  have := List.mem_filter.1 h
  simp at this

theorem lookupSession_append_of_none {m m' : List (Str × Session)} {sid : Str}
    (h : lookupSession m sid = none) :
    lookupSession (m ++ m') sid = lookupSession m' sid := by
  induction m with
  | nil => rfl
  | cons p rest ih =>
    by_cases hk : p.1 = sid
    · simp [lookupSession, hk] at h
    · simp only [lookupSession, if_neg hk] at h
      simpa [lookupSession, hk] using ih h

theorem countP_cons_pos {α : Type} (p : α → Bool) (a : α) (l : List α) (h : p a = true) :
    (a :: l).countP p = l.countP p + 1 := by
  simp [List.countP_cons, h]

theorem countP_cons_neg {α : Type} (p : α → Bool) (a : α) (l : List α) (h : p a = false) :
    (a :: l).countP p = l.countP p := by
  simp [List.countP_cons, h]

theorem countP_erase_of_pos {α : Type} [BEq α] [LawfulBEq α] (p : α → Bool) (l : List α) (a : α)
    (ha : a ∈ l) (hpa : p a = true) : (l.erase a).countP p + 1 = l.countP p := by
  induction l with
  | nil => cases ha
  | cons b rest ih =>
    rw [List.erase_cons]
    by_cases hb : b = a
    · subst hb
      rw [if_pos (by simp), countP_cons_pos p b rest hpa]
    · have hmem : a ∈ rest := by
        rcases List.mem_cons.1 ha with h | h
        · exact absurd h.symm hb
        · exact h
      rw [if_neg (by simp [hb])]
      by_cases hpb : p b = true
      · rw [countP_cons_pos p b _ hpb, countP_cons_pos p b rest hpb]
        have := ih hmem
        omega
      · rw [countP_cons_neg p b _ (by simpa using hpb),
          countP_cons_neg p b rest (by simpa using hpb)]
        exact ih hmem

theorem countP_erase_of_neg {α : Type} [BEq α] [LawfulBEq α] (p : α → Bool) (l : List α) (a : α)
    (hpa : p a = false) : (l.erase a).countP p = l.countP p := by
  induction l with
  | nil => rfl
  | cons b rest ih =>
    rw [List.erase_cons]
    by_cases hb : b = a
    · subst hb
      rw [if_pos (by simp), countP_cons_neg p b rest hpa]
    · rw [if_neg (by simp [hb])]
      by_cases hpb : p b = true
      · rw [countP_cons_pos p b _ hpb, countP_cons_pos p b rest hpb, ih]
      · rw [countP_cons_neg p b _ (by simpa using hpb),
          countP_cons_neg p b rest (by simpa using hpb), ih]

theorem countP_eq_zero_of_none {α : Type} (p : α → Bool) (l : List α)
    (h : ∀ a ∈ l, p a = false) : l.countP p = 0 := by
  induction l with
  | nil => rfl
  | cons b rest ih =>
    rw [countP_cons_neg p b rest (h b (List.mem_cons_self b rest))]
    exact ih fun a ha => h a (List.mem_cons_of_mem b ha)

theorem tokenCount_cons_self (infl : List (Str × ReqKind)) (sid : Str) (k : ReqKind) :
    tokenCount ((sid, k) :: infl) sid = tokenCount infl sid + 1 := by
  rw [tokenCount, tokenCount, countP_cons_pos]
  simp

theorem tokenCount_cons_ne (infl : List (Str × ReqKind)) {sid sid' : Str} (k : ReqKind)
    (h : sid' ≠ sid) :
    tokenCount ((sid, k) :: infl) sid' = tokenCount infl sid' := by
  rw [tokenCount, tokenCount, countP_cons_neg]
  show decide (sid = sid') = false
  exact decide_eq_false fun hc => h hc.symm

theorem tokenCount_erase_self (infl : List (Str × ReqKind)) (sid : Str) (k : ReqKind)
    (h : (sid, k) ∈ infl) :
    tokenCount (infl.erase (sid, k)) sid + 1 = tokenCount infl sid := by
  rw [tokenCount, tokenCount]
  exact countP_erase_of_pos (fun t => decide (t.1 = sid)) infl (sid, k) h
    (by show decide (sid = sid) = true; simp)

theorem tokenCount_erase_ne (infl : List (Str × ReqKind)) {sid sid' : Str} (k : ReqKind)
    (h : sid' ≠ sid) :
    tokenCount (infl.erase (sid, k)) sid' = tokenCount infl sid' := by
  rw [tokenCount, tokenCount]
  refine countP_erase_of_neg (fun t => decide (t.1 = sid')) infl (sid, k) ?_
  show decide (sid = sid') = false
  exact decide_eq_false fun hc => h hc.symm

theorem tokenCount_eq_zero_of (infl : List (Str × ReqKind)) (sid : Str)
    (h : ∀ t ∈ infl, t.1 ≠ sid) : tokenCount infl sid = 0 :=
  countP_eq_zero_of_none _ _ fun a ha => decide_eq_false (h a ha)

/-! ## The session-manager invariant

For every live session the active-request counter equals one (the
initialize request, whose `finally` block never decrements because the
request carried no `mcp-session-id` header) plus the number of in-flight
POST/GET/DELETE requests on that session. -/

structure Inv (st : GwState) : Prop where
  keysNodup : (sessionKeys st).Nodup
  keysUsed : ∀ sid ∈ sessionKeys st, sid ∈ st.usedIds
  tokensUsed : ∀ t ∈ st.inflight, t.1 ∈ st.usedIds
  counter : ∀ p ∈ st.sessions, p.2.activeRequests = 1 + (tokenCount st.inflight p.1 : Int)

private def bumpSession (now : Nat) (s : Session) : Session :=
  { s with lastActivity := now, activeRequests := s.activeRequests + 1 }

private def decSession (s : Session) : Session :=
  { s with activeRequests := s.activeRequests - 1 }

theorem inv_inc_push {m : List (Str × Session)} {infl : List (Str × ReqKind)}
    {used : List Str} {sid : Str} {s : Session} (now : Nat) (k : ReqKind)
    (hI : Inv ⟨m, infl, used⟩) (hl : lookupSession m sid = some s) :
    Inv ⟨updateSession m sid (bumpSession now), (sid, k) :: infl, used⟩ := by
  have hmem : sid ∈ m.map Prod.fst := lookupSession_mem_keys hl
  refine ⟨?_, ?_, ?_, ?_⟩
  · simpa [sessionKeys, keys_updateSession] using hI.keysNodup
  · intro x hx
    rw [sessionKeys, keys_updateSession] at hx
    exact hI.keysUsed x hx
  · intro t ht
    rcases List.mem_cons.1 ht with h | h
    · subst h; exact hI.keysUsed sid hmem
    · exact hI.tokensUsed t h
  · intro p hp
    rcases mem_updateSession hp with ⟨q, hq, hpq⟩
    have hcnt : q.2.activeRequests = 1 + (tokenCount infl q.1 : Int) := hI.counter q hq
    by_cases hqk : q.1 = sid
    · rw [if_pos hqk] at hpq
      subst hpq
      show (bumpSession now q.2).activeRequests
        = 1 + (tokenCount ((sid, k) :: infl) q.1 : Int)
      rw [hqk] at hcnt ⊢
      rw [tokenCount_cons_self]
      simp only [bumpSession]
      omega
    · rw [if_neg hqk] at hpq
      subst hpq
      show p.2.activeRequests = 1 + (tokenCount ((sid, k) :: infl) p.1 : Int)
      rw [tokenCount_cons_ne infl k hqk]
      exact hcnt

theorem inv_dec_erase {m : List (Str × Session)} {infl : List (Str × ReqKind)}
    {used : List Str} {sid : Str} (k : ReqKind)
    (hI : Inv ⟨m, infl, used⟩) (htok : (sid, k) ∈ infl) :
    Inv ⟨updateSession m sid decSession, infl.erase (sid, k), used⟩ := by
  refine ⟨?_, ?_, ?_, ?_⟩
  · simpa [sessionKeys, keys_updateSession] using hI.keysNodup
  · intro x hx
    rw [sessionKeys, keys_updateSession] at hx
    exact hI.keysUsed x hx
  · intro t ht
    exact hI.tokensUsed t (List.mem_of_mem_erase ht)
  · intro p hp
    rcases mem_updateSession hp with ⟨q, hq, hpq⟩
    have hcnt : q.2.activeRequests = 1 + (tokenCount infl q.1 : Int) := hI.counter q hq
    by_cases hqk : q.1 = sid
    · rw [if_pos hqk] at hpq
      subst hpq
      show (decSession q.2).activeRequests
        = 1 + (tokenCount (infl.erase (sid, k)) q.1 : Int)
      rw [hqk] at hcnt ⊢
      have herase := tokenCount_erase_self infl sid k htok
      simp only [decSession]
      omega
    · rw [if_neg hqk] at hpq
      subst hpq
      show p.2.activeRequests = 1 + (tokenCount (infl.erase (sid, k)) p.1 : Int)
      rw [tokenCount_erase_ne infl k hqk]
      exact hcnt

theorem inv_erase_dead {m : List (Str × Session)} {infl : List (Str × ReqKind)}
    {used : List Str} {sid : Str} (k : ReqKind)
    (hI : Inv ⟨m, infl, used⟩) (hdead : sid ∉ m.map Prod.fst) :
    Inv ⟨m, infl.erase (sid, k), used⟩ := by
  refine ⟨hI.keysNodup, hI.keysUsed, ?_, ?_⟩
  · intro t ht
    exact hI.tokensUsed t (List.mem_of_mem_erase ht)
  · intro p hp
    have hcnt : p.2.activeRequests = 1 + (tokenCount infl p.1 : Int) := hI.counter p hp
    have hne : p.1 ≠ sid := by
      intro hc
      exact hdead (hc ▸ List.mem_map_of_mem Prod.fst hp)
    show p.2.activeRequests = 1 + (tokenCount (infl.erase (sid, k)) p.1 : Int)
    rw [tokenCount_erase_ne infl k hne]
    exact hcnt

theorem inv_create {m : List (Str × Session)} {infl : List (Str × ReqKind)}
    {used : List Str} {fresh : Str} (now : Nat)
    (hI : Inv ⟨m, infl, used⟩) (hfresh : fresh ∉ used) :
    Inv ⟨m ++ [(fresh, ⟨now, now, 1⟩)], infl, fresh :: used⟩ := by
  have hfreshKeys : fresh ∉ m.map Prod.fst := fun h => hfresh (hI.keysUsed fresh h)
  refine ⟨?_, ?_, ?_, ?_⟩
  · rw [sessionKeys]
    simp only [List.map_append, List.map_cons, List.map_nil]
    exact List.Nodup.append hI.keysNodup (List.nodup_singleton fresh)
      (by intro x hx hx'; simp at hx'; exact hfreshKeys (hx' ▸ hx))
  · intro x hx
    rw [sessionKeys] at hx
    simp only [List.map_append, List.map_cons, List.map_nil, List.mem_append] at hx
    rcases hx with h | h
    · exact List.mem_cons_of_mem fresh (hI.keysUsed x h)
    · simp at h
      exact h ▸ List.mem_cons_self fresh used
  · intro t ht
    exact List.mem_cons_of_mem fresh (hI.tokensUsed t ht)
  · intro p hp
    rcases List.mem_append.1 hp with h | h
    · exact hI.counter p h
    · simp only [List.mem_singleton] at h
      subst h
      have hzero : tokenCount infl fresh = 0 := by
        refine tokenCount_eq_zero_of _ _ fun t ht hc => ?_
        exact hfresh (hc ▸ hI.tokensUsed t ht)
      show (1 : Int) = 1 + (tokenCount infl fresh : Int)
      simp [hzero]

theorem inv_remove {m : List (Str × Session)} {infl : List (Str × ReqKind)}
    {used : List Str} {sid : Str} (k : ReqKind)
    (hI : Inv ⟨m, infl, used⟩) :
    Inv ⟨removeSession m sid, infl.erase (sid, k), used⟩ := by
  refine ⟨?_, ?_, ?_, ?_⟩
  · rw [sessionKeys, keys_removeSession]
    exact hI.keysNodup.filter _
  · intro x hx
    rw [sessionKeys, keys_removeSession] at hx
    exact hI.keysUsed x (List.mem_of_mem_filter hx)
  · intro t ht
    exact hI.tokensUsed t (List.mem_of_mem_erase ht)
  · intro p hp
    rcases mem_removeSession hp with ⟨hpm, hpne⟩
    have hcnt : p.2.activeRequests = 1 + (tokenCount infl p.1 : Int) := hI.counter p hpm
    show p.2.activeRequests = 1 + (tokenCount (infl.erase (sid, k)) p.1 : Int)
    rw [tokenCount_erase_ne infl k hpne]
    exact hcnt

theorem inv_step (maxConc : Int) (st : GwState) (e : Ev)
    (hI : Inv st) (hv : validEv st e = true) : Inv (stepEv maxConc st e).2 := by
  obtain ⟨m, infl, used⟩ := st
  cases e with
  | postEnter now sessionId? isInit fresh =>
    cases sessionId? with
    | some sid =>
      cases hl : lookupSession m sid with
      | some s =>
        by_cases hc : maxConc ≤ s.activeRequests
        · simpa [stepEv, hl, hc] using hI
        · simp only [stepEv, hl, if_neg hc]
          exact inv_inc_push now ReqKind.post hI hl
      | none => simpa [stepEv, hl] using hI
    | none =>
      cases isInit with
      | false => simpa [stepEv] using hI
      | true =>
        by_cases hcap : maxStreamableSessions ≤ m.length
        · simpa [stepEv, hcap] using hI
        · have hfresh : fresh ∉ used := of_decide_eq_true (by simpa [validEv] using hv)
          simp only [stepEv, if_neg hcap, if_pos rfl, ite_true]
          exact inv_create now hI hfresh
  | postExit sessionId? =>
    cases sessionId? with
    | some sid =>
      cases hl : lookupSession m sid with
      | some s =>
        have htok : (sid, ReqKind.post) ∈ infl := of_decide_eq_true (by simpa [validEv] using hv)
        simp only [stepEv, hl]
        exact inv_dec_erase ReqKind.post hI htok
      | none =>
        have hdead : sid ∉ m.map Prod.fst := (lookupSession_eq_none_iff m sid).1 hl
        simp only [stepEv, hl]
        exact inv_erase_dead ReqKind.post hI hdead
    | none => simpa [stepEv] using hI
  | getEnter now sessionId? =>
    cases sessionId? with
    | some sid =>
      cases hl : lookupSession m sid with
      | some s =>
        by_cases hc : maxConc ≤ s.activeRequests
        · simpa [stepEv, hl, hc] using hI
        · simp only [stepEv, hl, if_neg hc]
          exact inv_inc_push now ReqKind.get hI hl
      | none => simpa [stepEv, hl] using hI
    | none => simpa [stepEv] using hI
  | getExit sid =>
    cases hl : lookupSession m sid with
    | some s =>
      have htok : (sid, ReqKind.get) ∈ infl := of_decide_eq_true (by simpa [validEv] using hv)
      simp only [stepEv, hl]
      exact inv_dec_erase ReqKind.get hI htok
    | none =>
      have hdead : sid ∉ m.map Prod.fst := (lookupSession_eq_none_iff m sid).1 hl
      simp only [stepEv, hl]
      exact inv_erase_dead ReqKind.get hI hdead
  | deleteEnter now sessionId? =>
    cases sessionId? with
    | some sid =>
      cases hl : lookupSession m sid with
      | some s =>
        simp only [stepEv, hl]
        exact inv_inc_push now ReqKind.del hI hl
      | none => simpa [stepEv, hl] using hI
    | none => simpa [stepEv] using hI
  | deleteExit sid =>
    simp only [stepEv]
    exact inv_remove ReqKind.del hI

theorem inv_start : Inv startState := by
  refine ⟨?_, ?_, ?_, ?_⟩ <;> simp [startState, sessionKeys]

theorem reachable_inv {maxConc : Int} {st : GwState}
    (h : Reachable maxConc st) : Inv st := by
  induction h with
  | start => exact inv_start
  | step hprev hv ih => exact inv_step _ _ _ ih hv

theorem usedIds_mono (maxConc : Int) (st : GwState) (e : Ev) :
    st.usedIds ⊆ (stepEv maxConc st e).2.usedIds := by
  obtain ⟨m, infl, used⟩ := st
  cases e with
  | postEnter now sessionId? isInit fresh =>
    cases sessionId? with
    | some sid =>
      cases hl : lookupSession m sid with
      | some s =>
        by_cases hc : maxConc ≤ s.activeRequests <;> simp [stepEv, hl, hc]
      | none => simp [stepEv, hl]
    | none =>
      cases isInit with
      | false => simp [stepEv]
      | true =>
        by_cases hcap : maxStreamableSessions ≤ m.length
        · simp [stepEv, hcap]
        · simp only [stepEv, if_neg hcap, if_pos rfl, ite_true]
          exact List.subset_cons_self fresh used
  | postExit sessionId? =>
    cases sessionId? with
    | some sid =>
      cases hl : lookupSession m sid with
      | some s => simp [stepEv, hl]
      | none => simp [stepEv, hl]
    | none => simp [stepEv]
  | getEnter now sessionId? =>
    cases sessionId? with
    | some sid =>
      cases hl : lookupSession m sid with
      | some s =>
        by_cases hc : maxConc ≤ s.activeRequests <;> simp [stepEv, hl, hc]
      | none => simp [stepEv, hl]
    | none => simp [stepEv]
  | getExit sid =>
    cases hl : lookupSession m sid with
    | some s => simp [stepEv, hl]
    | none => simp [stepEv, hl]
  | deleteEnter now sessionId? =>
    cases sessionId? with
    | some sid =>
      cases hl : lookupSession m sid with
      | some s => simp [stepEv, hl]
      | none => simp [stepEv, hl]
    | none => simp [stepEv]
  | deleteExit sid => simp [stepEv]

theorem dead_step (maxConc : Int) (st : GwState) (e : Ev) (sid : Str)
    (hv : validEv st e = true) (hu : sid ∈ st.usedIds) (hd : sid ∉ sessionKeys st) :
    sid ∈ (stepEv maxConc st e).2.usedIds ∧ sid ∉ sessionKeys (stepEv maxConc st e).2 := by
  refine ⟨usedIds_mono maxConc st e hu, ?_⟩
  obtain ⟨m, infl, used⟩ := st
  cases e with
  | postEnter now sessionId? isInit fresh =>
    cases sessionId? with
    | some sid' =>
      cases hl : lookupSession m sid' with
      | some s =>
        by_cases hc : maxConc ≤ s.activeRequests
        · simpa [stepEv, hl, hc, sessionKeys] using hd
        · simp only [stepEv, hl, if_neg hc]
          simpa [sessionKeys, keys_updateSession] using hd
      | none => simpa [stepEv, hl, sessionKeys] using hd
    | none =>
      cases isInit with
      | false => simpa [stepEv, sessionKeys] using hd
      | true =>
        by_cases hcap : maxStreamableSessions ≤ m.length
        · simpa [stepEv, hcap, sessionKeys] using hd
        · have hfresh : fresh ∉ used := of_decide_eq_true (by simpa [validEv] using hv)
          have hne : sid ≠ fresh := fun hc => hfresh (hc ▸ hu)
          simp only [stepEv, if_neg hcap, if_pos rfl, ite_true]
          simp only [sessionKeys] at hd ⊢
          simp [hd, hne]
  | postExit sessionId? =>
    cases sessionId? with
    | some sid' =>
      cases hl : lookupSession m sid' with
      | some s =>
        simp only [stepEv, hl]
        simpa [sessionKeys, keys_updateSession] using hd
      | none => simpa [stepEv, hl, sessionKeys] using hd
    | none => simpa [stepEv, sessionKeys] using hd
  | getEnter now sessionId? =>
    cases sessionId? with
    | some sid' =>
      cases hl : lookupSession m sid' with
      | some s =>
        by_cases hc : maxConc ≤ s.activeRequests
        · simpa [stepEv, hl, hc, sessionKeys] using hd
        · simp only [stepEv, hl, if_neg hc]
          simpa [sessionKeys, keys_updateSession] using hd
      | none => simpa [stepEv, hl, sessionKeys] using hd
    | none => simpa [stepEv, sessionKeys] using hd
  | getExit sid' =>
    cases hl : lookupSession m sid' with
    | some s =>
      simp only [stepEv, hl]
      simpa [sessionKeys, keys_updateSession] using hd
    | none => simpa [stepEv, hl, sessionKeys] using hd
  | deleteEnter now sessionId? =>
    cases sessionId? with
    | some sid' =>
      cases hl : lookupSession m sid' with
      | some s =>
        simp only [stepEv, hl]
        simpa [sessionKeys, keys_updateSession] using hd
      | none => simpa [stepEv, hl, sessionKeys] using hd
    | none => simpa [stepEv, sessionKeys] using hd
  | deleteExit sid' =>
    simp only [stepEv]
    intro hmem
    simp only [sessionKeys, keys_removeSession] at hmem
    exact hd (by simpa [sessionKeys] using List.mem_of_mem_filter hmem)

theorem dead_trace {maxConc : Int} {st st' : GwState}
    (h : TraceFrom maxConc st st') (sid : Str)
    (hu : sid ∈ st.usedIds) (hd : sid ∉ sessionKeys st) :
    sid ∈ st'.usedIds ∧ sid ∉ sessionKeys st' := by
  induction h with
  | refl => exact ⟨hu, hd⟩
  | step hprev hv ih => exact dead_step _ _ _ _ hv ih.1 ih.2

/-! ## Remaining small lemmas used by the claim theorems -/

theorem splitCh_eq_single (sep : Char) (l : Str) (h : sep ∉ l) :
    splitCh sep l = [l] := by
  induction l with
  | nil => rfl
  | cons c rest ih =>
    have hc : ¬c = sep := fun hc => h (hc ▸ List.mem_cons_self c rest)
    have hrest : sep ∉ rest := fun hm => h (List.mem_cons_of_mem c hm)
    simp only [splitCh, if_neg hc, ih hrest]

theorem lookupSession_mem {m : List (Str × Session)} {sid : Str} {s : Session}
    (h : lookupSession m sid = some s) : (sid, s) ∈ m := by
  induction m with
  | nil => simp [lookupSession] at h
  | cons p rest ih =>
    by_cases hk : p.1 = sid
    · simp only [lookupSession, if_pos hk] at h
      injection h with h
      subst h
      subst hk
      exact List.mem_cons_self p rest
    · simp only [lookupSession, if_neg hk] at h
      exact List.mem_cons_of_mem p (ih h)

theorem tokenCount_pos {infl : List (Str × ReqKind)} {sid : Str} {k : ReqKind}
    (h : (sid, k) ∈ infl) : 1 ≤ tokenCount infl sid := by
  rw [tokenCount]
  have : 0 < infl.countP fun p => decide (p.1 = sid) :=
    List.countP_pos_iff.2 ⟨(sid, k), h, by simp⟩
  omega

/-- A name containing a `'.'` is neither of the two management tool names. -/
theorem dotted_ne_mgmt {n : Str} (h : '.' ∈ n) :
    n ≠ listServersName ∧ n ≠ getServerInfoName := by
  constructor <;> intro hc <;> rw [hc] at h <;> revert h <;> decide

/-- Contiguous-substring test (used to state what an error message does NOT
mention). -/
def isSubStr (needle : Str) : Str → Bool
  | [] => needle.isEmpty
  | c :: rest => needle.isPrefixOf (c :: rest) || isSubStr needle rest

/-! ## Claim C8 -/

/-- Written from the claim's wording, extended by the HTTP-status branch the
source also has: the listed codes map to transient/critical; otherwise a
truthy HTTP `status` in 500–599 is transient and in 400–499 critical; every
remaining input is unknown. -/
def categorizeErrorAmended (err : Option JsError) : ErrCategory :=
  match err with
  | none => .unknown
  | some e =>
    if strFieldTruthy e.code ∧ e.code.getD [] ∈ transientErrorCodes then .transient
    else if strFieldTruthy e.code ∧ e.code.getD [] ∈ criticalErrorCodes then .critical
    else if intFieldTruthy e.status ∧ 500 ≤ e.status.getD 0 ∧ e.status.getD 0 < 600 then
      .transient
    else if intFieldTruthy e.status ∧ 400 ≤ e.status.getD 0 ∧ e.status.getD 0 < 500 then
      .critical
    else .unknown

/-- Claim C8 counterexample: an error value with no `code` field and HTTP
status 503 is classified `transient` by `categorizeError`, not `unknown`
as the claim requires for every input outside the listed code sets. -/
theorem c8_counterexample :
    categorizeError (some ⟨none, some 503⟩) = ErrCategory.transient ∧
      ErrCategory.transient ≠ ErrCategory.unknown := by
  decide

/-- Claim C8 (amended): `categorizeError` maps exactly the connection-reset,
timeout, host-not-found and broken-pipe codes to transient and exactly the
connection-refused, permission-denied and FD-exhaustion codes to critical;
an input with no recognized (truthy) code but a truthy HTTP status is
transient for 5xx and critical for 4xx; everything else is unknown. -/
theorem c8_categorize_error (err : Option JsError) :
    categorizeError err = categorizeErrorAmended err := by
  rcases err with _ | e
  · rfl
  · simp only [categorizeError, categorizeErrorAmended]
    by_cases hct : strFieldTruthy e.code = true
    · by_cases htr : e.code.getD [] ∈ transientErrorCodes
      · simp [hct, htr]
      · by_cases hcr : e.code.getD [] ∈ criticalErrorCodes
        · simp [hct, htr, hcr]
        · by_cases hst : intFieldTruthy e.status = true
          · simp [hct, htr, hcr, hst]
          · simp only [hct, htr, hcr] at *
            simp [hst]
    · have hct' : strFieldTruthy e.code = false := by simpa using hct
      by_cases hst : intFieldTruthy e.status = true
      · simp [hct', hst]
      · have hst' : intFieldTruthy e.status = false := by simpa using hst
        simp [hct', hst']

/-! ## Claim C10 -/

/-- The tool-call handler never mutates `connectedServers` (the source
handler only reads the map), so its full effect is the outcome plus the
unchanged map. -/
def callToolStep (servers : ServersMap) (name : Str)
    (args : Option (List (Str × JsValue))) : CallOutcome × ServersMap :=
  (callToolHandler servers name args, servers)

/-- Claim C10: a `get_server_info` call whose `serverName` argument is
absent or not a string yields a gateway-local `isError` result whose text
reports the invalid parameter and the received JS type; no upstream is
contacted (the outcome is `localText`, not `forward`) and the
connected-servers map is unchanged. -/
theorem c10_get_server_info_invalid (servers : ServersMap)
    (args : Option (List (Str × JsValue)))
    (h : ∀ s, getServerNameArg args ≠ JsValue.str s) :
    callToolStep servers getServerInfoName args =
      (CallOutcome.localText (invalidServerNameMsg (getServerNameArg args)) true,
       servers) := by
  have hne : ¬(getServerInfoName = listServersName) := by decide
  unfold callToolStep callToolHandler
  rw [if_neg hne, if_pos rfl]
  cases hv : getServerNameArg args with
  | str s => exact absurd hv (h s)
  | undef => rfl
  | null => rfl
  | num n => rfl
  | boolean b => rfl
  | obj => rfl
  | arr => rfl

/-- Witness for C10 at a concrete input: arguments absent entirely. -/
theorem c10_witness :
    (∀ s, getServerNameArg none ≠ JsValue.str s) ∧
    callToolStep [] getServerInfoName none =
      (CallOutcome.localText (invalidServerNameMsg (getServerNameArg none)) true,
       []) := by
  have h : ∀ s, getServerNameArg none ≠ JsValue.str s := by
    intro s hc
    simp [getServerNameArg] at hc
  exact ⟨h, c10_get_server_info_invalid [] none h⟩

/-! ## Claims C1 and C3: the tools/call name router -/

/-- Computation lemma: when `split('.', 2)` yields a non-empty prefix and a
non-empty second segment and the prefix names a connected upstream, the
call is delegated to that upstream with the second segment as tool name. -/
theorem callToolHandler_delegate (servers : ServersMap) (name U t : Str)
    (more : List Str) (srv : ConnectedServer)
    (args : Option (List (Str × JsValue)))
    (hs : splitCh '.' name = U :: t :: more) (hU : U ≠ []) (ht : t ≠ [])
    (hdot : '.' ∈ name) (hlook : lookupServer servers U = some srv) :
    callToolHandler servers name args = CallOutcome.forward U t (args.getD []) := by
  obtain ⟨hm1, hm2⟩ := dotted_ne_mgmt hdot
  simp only [callToolHandler, if_neg hm1, if_neg hm2, hs]
  rw [if_neg (by simp [hU, ht])]
  have htake : List.take 2 (U :: t :: more) = [U, t] := by simp
  simp only [htake, List.headD_cons, List.getElem?_cons_succ, List.getElem?_cons_zero,
    Option.getD_some]
  rw [hlook]

/-- Written from the claim's wording, for comparison: the ENTIRE remainder
of the public name after the FIRST `'.'`. -/
def remainderAfterFirstDot (name : Str) : Str :=
  (name.dropWhile fun c => !decide (c = '.')).tail

def c1Server : ConnectedServer :=
  ⟨"srv".data, none, [⟨"my.tool".data, none⟩], [], []⟩

def c1Servers : ServersMap := [("srv".data, c1Server)]

/-- Claim C1 counterexample: with upstream `srv` connected (advertising the
tool `my.tool`), a call to the public name `srv.my.tool` forwards the tool
name `my` — the segment between the first and second `'.'` — although the
remainder after the first `'.'` is `my.tool`.  JavaScript's
`split('.', 2)` truncates; it does not keep a remainder. -/
theorem c1_counterexample :
    callToolHandler c1Servers ("srv.my.tool".data) none =
      CallOutcome.forward ("srv".data) ("my".data) []
    ∧ remainderAfterFirstDot ("srv.my.tool".data) = "my.tool".data
    ∧ ("my".data : Str) ≠ ("my.tool".data : Str) := by
  decide

/-- Claim C1 (amended): for a public name `U.t` whose upstream `U` is
connected, the prefix before the first `'.'` selects the upstream, but the
forwarded tool name is only the segment strictly between the first and the
second `'.'`: the whole remainder `t` is forwarded exactly when `t`
contains no further `'.'`; a remainder `t₁.t₂` is truncated to `t₁`. -/
theorem c1_split_on_first_dot (servers : ServersMap) (U t t₁ t₂ : Str)
    (srv : ConnectedServer) (args : Option (List (Str × JsValue)))
    (hU : '.' ∉ U) (hUne : U ≠ []) (ht : '.' ∉ t) (htne : t ≠ [])
    (ht₁ : '.' ∉ t₁) (ht₁ne : t₁ ≠ [])
    (hlook : lookupServer servers U = some srv) :
    callToolHandler servers (U ++ '.' :: t) args
      = CallOutcome.forward U t (args.getD [])
    ∧ callToolHandler servers (U ++ '.' :: (t₁ ++ '.' :: t₂)) args
      = CallOutcome.forward U t₁ (args.getD []) := by
  constructor
  · refine callToolHandler_delegate servers _ U t [] srv args ?_ hUne htne ?_ hlook
    · rw [splitCh_append '.' U t hU, splitCh_eq_single '.' t ht]
    · exact List.mem_append_right U (List.mem_cons_self '.' t)
  · refine callToolHandler_delegate servers _ U t₁ (splitCh '.' t₂) srv args ?_
      hUne ht₁ne ?_ hlook
    · rw [splitCh_append '.' U _ hU, splitCh_append '.' t₁ t₂ ht₁]
    · exact List.mem_append_right U (List.mem_cons_self '.' _)

/-- Witness for the amended C1 at concrete inputs. -/
theorem c1_witness :
    ('.' ∉ ("srv".data : Str)) ∧ ("srv".data : Str) ≠ []
    ∧ ('.' ∉ ("echo".data : Str)) ∧ ("echo".data : Str) ≠ []
    ∧ ('.' ∉ ("my".data : Str)) ∧ ("my".data : Str) ≠ []
    ∧ lookupServer c1Servers ("srv".data) = some c1Server
    ∧ callToolHandler c1Servers ("srv".data ++ '.' :: "echo".data) none
        = CallOutcome.forward ("srv".data) ("echo".data) []
    ∧ callToolHandler c1Servers ("srv".data ++ '.' :: ("my".data ++ '.' :: "tool".data)) none
        = CallOutcome.forward ("srv".data) ("my".data) [] := by
  refine ⟨by decide, by decide, by decide, by decide, by decide, by decide, by decide, ?_, ?_⟩
  · exact (c1_split_on_first_dot c1Servers ("srv".data) ("echo".data) ("my".data)
      ("tool".data) c1Server none (by decide) (by decide) (by decide) (by decide)
      (by decide) (by decide) (by decide)).1
  · exact (c1_split_on_first_dot c1Servers ("srv".data) ("echo".data) ("my".data)
      ("tool".data) c1Server none (by decide) (by decide) (by decide) (by decide)
      (by decide) (by decide) (by decide)).2

/-! ## Claim C3 -/

def c3ServerA : ConnectedServer := ⟨"A".data, none, [⟨"t".data, none⟩], [], []⟩

def c3ServerB : ConnectedServer := ⟨"B".data, none, [⟨"t".data, none⟩], [], []⟩

def c3Servers : ServersMap := [("A".data, c3ServerA), ("B".data, c3ServerB)]

/-- Claim C3 counterexample: the handler performs no unique-lookup at all
for dot-less names.  With exactly one upstream `A` advertising tool `t`, a
call with name `t` is NOT routed to `A` but answered with the fixed
invalid-format error; with two upstreams `A` and `B` both advertising `t`,
the error text does not mention the disambiguated form `A.t`. -/
theorem c3_counterexample :
    callToolHandler [("A".data, c3ServerA)] ("t".data) none =
      CallOutcome.localText invalidToolNameMsg true
    ∧ callToolHandler [("A".data, c3ServerA)] ("t".data) none ≠
      CallOutcome.forward ("A".data) ("t".data) []
    ∧ callToolHandler c3Servers ("t".data) none =
      CallOutcome.localText invalidToolNameMsg true
    ∧ isSubStr ("A.t".data) invalidToolNameMsg = false := by
  decide

/-- Claim C3 (amended): every `tools/call` whose public name contains no
`'.'` and is not one of the two management tools returns the fixed
gateway-local error result `Invalid tool name format. Use
server_name.tool_name` with `isError` set — no unique-lookup across
upstreams takes place, whether the name is advertised by zero, one or many
upstreams. -/
theorem c3_no_dot_always_invalid (servers : ServersMap) (name : Str)
    (args : Option (List (Str × JsValue)))
    (hdot : '.' ∉ name) (h1 : name ≠ listServersName) (h2 : name ≠ getServerInfoName) :
    callToolHandler servers name args =
      CallOutcome.localText invalidToolNameMsg true := by
  simp only [callToolHandler, if_neg h1, if_neg h2, splitCh_eq_single '.' name hdot]
  rw [if_pos (by simp)]

/-- Witness for the amended C3 at a concrete input. -/
theorem c3_witness :
    ('.' ∉ ("t".data : Str)) ∧ ("t".data : Str) ≠ listServersName
    ∧ ("t".data : Str) ≠ getServerInfoName
    ∧ callToolHandler c3Servers ("t".data) none =
        CallOutcome.localText invalidToolNameMsg true :=
  ⟨by decide, by decide, by decide,
    c3_no_dot_always_invalid c3Servers ("t".data) none (by decide) (by decide) (by decide)⟩

/-! ## Claim C4: resource URI namespacing round-trips -/

/-- Claim C4: `resources/list` exposes every upstream resource URI `R` of
upstream `U` verbatim as `U://R`, and `resources/read` on `U://R` (for any
upstream name `U` free of `'://'` that is connected) splits on the FIRST
`'://'` and forwards exactly `R` to upstream `U`, byte for byte, even when
`R` itself contains `'://'`. -/
theorem c4_resource_roundtrip (servers : ServersMap) (U R : Str)
    (srv : ConnectedServer) (hU : noUriSep U = true)
    (hlook : lookupServer servers U = some srv) :
    ((listResourcesHandler servers).map PublicResource.uri
      = servers.flatMap fun p => p.2.resources.map fun r =>
          p.1 ++ ':' :: '/' :: '/' :: r.uri)
    ∧ readResourceHandler servers (U ++ ':' :: '/' :: '/' :: R)
        = ReadOutcome.forward U R := by
  constructor
  · simp only [listResourcesHandler, List.map_flatMap, List.map_map]
    rfl
  · unfold readResourceHandler
    rw [splitUri_append U R hU]
    simp only [List.headD_cons, List.tail_cons, joinUri_splitUri]
    rw [hlook]

def c4Server : ConnectedServer :=
  ⟨"up".data, none, [], [⟨"mem://a/b".data, none, none, none⟩], []⟩

def c4Servers : ServersMap := [("up".data, c4Server)]

/-- Witness for C4 at a concrete input whose original URI itself contains
`'://'`. -/
theorem c4_witness :
    noUriSep ("up".data) = true
    ∧ lookupServer c4Servers ("up".data) = some c4Server
    ∧ readResourceHandler c4Servers (("up".data) ++ ':' :: '/' :: '/' :: "mem://a/b".data)
        = ReadOutcome.forward ("up".data) ("mem://a/b".data) :=
  ⟨by decide, by decide,
    (c4_resource_roundtrip c4Servers ("up".data) ("mem://a/b".data) c4Server
      (by decide) (by decide)).2⟩

/-! ## Claim C5: shape of the tools/list result -/

/-- Claim C5: with distinct dot-free upstream names (the configured-name
rules of the data model) and per-upstream duplicate-free tool names,
`tools/list` returns exactly (sum of upstream tool counts) + 2 entries,
all names distinct, every upstream-sourced name of the form `U.t`, and the
two management tools always present — also for zero upstreams. -/
theorem c5_tools_list (servers : ServersMap)
    (hnames : (servers.map Prod.fst).Nodup)
    (hnodot : ∀ p ∈ servers, '.' ∉ p.1)
    (htools : ∀ p ∈ servers, (p.2.tools.map ToolDef.name).Nodup) :
    (listToolsHandler servers).length
        = (servers.map fun p => p.2.tools.length).sum + 2
    ∧ ((listToolsHandler servers).map PublicTool.name).Nodup
    ∧ (∀ pt ∈ listToolsHandler servers,
        (∃ p ∈ servers, ∃ t ∈ p.2.tools, pt.name = p.1 ++ '.' :: t.name)
        ∨ pt.name = listServersName ∨ pt.name = getServerInfoName)
    ∧ listServersName ∈ (listToolsHandler servers).map PublicTool.name
    ∧ getServerInfoName ∈ (listToolsHandler servers).map PublicTool.name := by
  have hnamesEq : (listToolsHandler servers).map PublicTool.name
      = (servers.flatMap fun p => p.2.tools.map fun t => p.1 ++ '.' :: t.name)
        ++ [listServersName, getServerInfoName] := by
    simp only [listToolsHandler, List.map_append, List.map_flatMap, List.map_map]
    rfl
  refine ⟨?_, ?_, ?_, ?_, ?_⟩
  · simp [listToolsHandler, List.length_append, List.length_flatMap, Function.comp_def,
      List.length_map]
  · rw [hnamesEq, List.nodup_append]
    refine ⟨?_, by decide, ?_⟩
    · rw [List.nodup_flatMap]
      constructor
      · intro p hp
        have hinj : Function.Injective fun n : Str => p.1 ++ '.' :: n := by
          intro a b hab
          have h2 := List.append_cancel_left hab
          injection h2
        rw [show (p.2.tools.map fun t => p.1 ++ '.' :: t.name)
            = (p.2.tools.map ToolDef.name).map (fun n => p.1 ++ '.' :: n) by
          rw [List.map_map]; rfl]
        exact List.Nodup.map hinj (htools p hp)
      · have hpair : servers.Pairwise fun p q => p.1 ≠ q.1 := List.pairwise_map.1 hnames
        refine hpair.imp_of_mem ?_
        intro p q hp hq hne x hx hx'
        rcases List.mem_map.1 hx with ⟨t1, ht1, hxe⟩
        rcases List.mem_map.1 hx' with ⟨t2, ht2, hxe'⟩
        have hglue : p.1 ++ '.' :: t1.name = q.1 ++ '.' :: t2.name := by
          rw [hxe, hxe']
        exact hne (sep_glue_inj '.' p.1 q.1 t1.name t2.name
          (hnodot p hp) (hnodot q hq) hglue).1
    · intro x hx hx'
      rcases List.mem_flatMap.1 hx with ⟨p, hp, hxp⟩
      rcases List.mem_map.1 hxp with ⟨t, ht, hxe⟩
      have hdot : '.' ∈ x := hxe ▸ List.mem_append_right _ (List.mem_cons_self _ _)
      obtain ⟨h1, h2⟩ := dotted_ne_mgmt hdot
      simp only [List.mem_cons, List.not_mem_nil, or_false] at hx'
      rcases hx' with h | h
      · exact h1 h
      · exact h2 h
  · intro pt hpt
    rcases List.mem_append.1 hpt with h | h
    · rcases List.mem_flatMap.1 h with ⟨p, hp, hptp⟩
      rcases List.mem_map.1 hptp with ⟨t, ht, hpe⟩
      exact Or.inl ⟨p, hp, t, ht, by rw [← hpe]⟩
    · simp only [List.mem_cons, List.not_mem_nil, or_false] at h
      rcases h with h | h
      · exact Or.inr (Or.inl (by rw [h]; rfl))
      · exact Or.inr (Or.inr (by rw [h]; rfl))
  · rw [hnamesEq]
    exact List.mem_append_right _ (List.mem_cons_self _ _)
  · rw [hnamesEq]
    exact List.mem_append_right _ (List.mem_cons_of_mem _ (List.mem_cons_self _ _))

def c5Server1 : ConnectedServer :=
  ⟨"alpha".data, none, [⟨"x".data, none⟩, ⟨"y".data, none⟩], [], []⟩

def c5Server2 : ConnectedServer :=
  ⟨"beta".data, none, [⟨"x".data, none⟩], [], []⟩

def c5Servers : ServersMap :=
  [("alpha".data, c5Server1), ("beta".data, c5Server2)]

/-- Witness for C5 at two concrete upstreams with three tools in total
(one original tool name shared between the upstreams). -/
theorem c5_witness :
    ((c5Servers.map Prod.fst).Nodup
      ∧ (∀ p ∈ c5Servers, '.' ∉ p.1)
      ∧ ∀ p ∈ c5Servers, (p.2.tools.map ToolDef.name).Nodup)
    ∧ ((listToolsHandler c5Servers).length
        = (c5Servers.map fun p => p.2.tools.length).sum + 2
      ∧ ((listToolsHandler c5Servers).map PublicTool.name).Nodup) := by
  refine ⟨⟨by decide, by decide, by decide⟩, ?_⟩
  have h := c5_tools_list c5Servers (by decide) (by decide) (by decide)
  exact ⟨h.1, h.2.1⟩

/-! ## Claim C6: the 100-session global cap -/

/-- Claim C6: when at least 100 modern sessions are active, an initialize
request (sessionId absent, initialize body) on POST `/mcp` is rejected
with HTTP 503 and the JSON-RPC envelope `{jsonrpc:'2.0',
error:{code:-32000, message}, id:null}` whose message contains
`Too many active sessions`, and the state — in particular the session
map — is unchanged: no session is created. -/
theorem c6_session_cap (maxConc : Int) (st : GwState) (now : Nat) (fresh : Str)
    (hcap : maxStreamableSessions ≤ st.sessions.length) :
    stepEv maxConc st (.postEnter now none true fresh)
      = (some ⟨503, .jsonRpcError (-32000) tooManySessionsMsg⟩, st)
    ∧ ∃ pre post : Str,
        tooManySessionsMsg = pre ++ "Too many active sessions".data ++ post := by
  refine ⟨by simp [stepEv, hcap], ⟨"Service temporarily unavailable: ".data, [], ?_⟩⟩
  decide

def c6State : GwState :=
  ⟨List.replicate 100 ("s".data, ⟨0, 0, 1⟩), [], []⟩

/-- Witness for C6 at a state holding exactly 100 sessions. -/
theorem c6_witness :
    maxStreamableSessions ≤ c6State.sessions.length
    ∧ stepEv 10 c6State (.postEnter 7 none true ("n".data))
        = (some ⟨503, .jsonRpcError (-32000) tooManySessionsMsg⟩, c6State) :=
  ⟨by decide, (c6_session_cap 10 c6State 7 ("n".data) (by decide)).1⟩

/-! ## Claim C7: the per-session concurrency cap -/

/-- Claim C7 counterexample: with the per-session cap set to 2 and a
session holding 2 active requests, an over-cap GET `/mcp` is rejected with
HTTP 429 but a plain-text body, not a JSON-RPC error envelope as the claim
requires for both POST and GET. -/
theorem c7_counterexample :
    (stepEv 2 ⟨[("s".data, ⟨0, 0, 2⟩)], [], ["s".data]⟩
        (.getEnter 5 (some ("s".data)))).1
      = some ⟨429, Body.text tooManyConcurrentMsg⟩
    ∧ Body.isJsonRpcEnvelope (Body.text tooManyConcurrentMsg) = false := by
  decide

/-- Claim C7 (amended): when a session's active-request count has reached
the configured per-session maximum (default 10), a further POST on it is
rejected with HTTP 429 and a JSON-RPC envelope (code −32000), a further
GET is rejected with HTTP 429 and a plain-text body, and neither rejected
request changes the state — in particular the count is not incremented. -/
theorem c7_request_cap (maxConc : Int) (st : GwState) (sid : Str) (s : Session)
    (now now' : Nat) (isInit : Bool) (fresh : Str)
    (hl : lookupSession st.sessions sid = some s)
    (hc : maxConc ≤ s.activeRequests) :
    stepEv maxConc st (.postEnter now (some sid) isInit fresh)
      = (some ⟨429, .jsonRpcError (-32000) tooManyConcurrentMsg⟩, st)
    ∧ stepEv maxConc st (.getEnter now' (some sid))
      = (some ⟨429, .text tooManyConcurrentMsg⟩, st)
    ∧ defaultMaxConcurrentRequestsPerSession = 10 := by
  refine ⟨?_, ?_, rfl⟩ <;> simp [stepEv, hl, hc]

def c7State : GwState := ⟨[("s".data, ⟨0, 0, 2⟩)], [], ["s".data]⟩

/-- Witness for the amended C7 with cap 2 and a session at 2 active
requests. -/
theorem c7_witness :
    lookupSession c7State.sessions ("s".data) = some ⟨0, 0, 2⟩
    ∧ (2 : Int) ≤ (2 : Int)
    ∧ stepEv 2 c7State (.postEnter 5 (some ("s".data)) false ("f".data))
        = (some ⟨429, .jsonRpcError (-32000) tooManyConcurrentMsg⟩, c7State) :=
  ⟨by decide, by decide,
    (c7_request_cap 2 c7State ("s".data) ⟨0, 0, 2⟩ 5 6 false ("f".data)
      (by decide) (by decide)).1⟩

/-! ## Claim C2: the active-request counter discipline -/

/-- Claim C2 counterexample: a valid three-event run — initialize creating
session `a` (counter 1), DELETE entering (counter 2), DELETE's `finally`
destroying the session — destroys the session while its counter is 2, not
0: neither the initialize nor the DELETE ever decrements. -/
theorem c2_counterexample :
    (let e1 : Ev := .postEnter 0 none true ("a".data)
     let st1 := (stepEv 10 startState e1).2
     let e2 : Ev := .deleteEnter 1 (some ("a".data))
     let st2 := (stepEv 10 st1 e2).2
     let e3 : Ev := .deleteExit ("a".data)
     let st3 := (stepEv 10 st2 e3).2
     validEv startState e1 = true
     ∧ validEv st1 e2 = true
     ∧ validEv st2 e3 = true
     ∧ (lookupSession st1.sessions ("a".data)).map Session.activeRequests = some 1
     ∧ (lookupSession st2.sessions ("a".data)).map Session.activeRequests = some 2
     ∧ st3.sessions = []
     ∧ (2 : Int) ≠ 0) := by
  decide

/-- Claim C2 (amended): over every reachable state of the modern session
manager, a live session's active-request counter equals 1 (the initialize,
whose exit path never decrements because the request carried no session-id
header) plus its number of in-flight POST/GET/DELETE requests — hence it
is always ≥ 1 (in particular ≥ 0) while the session lives, and a session
destroyed by the DELETE exit path dies with counter ≥ 2, never 0. -/
theorem c2_counter_discipline (maxConc : Int) (st : GwState)
    (h : Reachable maxConc st) :
    (∀ p ∈ st.sessions,
        p.2.activeRequests = 1 + (tokenCount st.inflight p.1 : Int)
        ∧ 1 ≤ p.2.activeRequests)
    ∧ (∀ sid s, lookupSession st.sessions sid = some s →
        (sid, ReqKind.del) ∈ st.inflight → 2 ≤ s.activeRequests) := by
  have hI := reachable_inv h
  constructor
  · intro p hp
    have hc := hI.counter p hp
    refine ⟨hc, ?_⟩
    rw [hc]
    have : (0 : Int) ≤ (tokenCount st.inflight p.1 : Int) := Int.natCast_nonneg _
    omega
  · intro sid s hl htok
    have hp := lookupSession_mem hl
    have hc := hI.counter (sid, s) hp
    have hge := tokenCount_pos htok
    simp only at hc
    rw [hc]
    have : (1 : Int) ≤ (tokenCount st.inflight sid : Int) := by exact_mod_cast hge
    omega

def c2WitState : GwState :=
  (stepEv 10 startState (.postEnter 0 none true ("a".data))).2

/-- Witness for the amended C2: the reachable state holding one fresh
session, evaluated at that session. -/
theorem c2_witness :
    (("a".data, (⟨0, 0, 1⟩ : Session)) ∈ c2WitState.sessions)
    ∧ ((⟨0, 0, 1⟩ : Session).activeRequests
        = 1 + (tokenCount c2WitState.inflight ("a".data) : Int)
      ∧ 1 ≤ (⟨0, 0, 1⟩ : Session).activeRequests) := by
  have hmem : ("a".data, (⟨0, 0, 1⟩ : Session)) ∈ c2WitState.sessions := by decide
  exact ⟨hmem, (c2_counter_discipline 10 c2WitState
    (Reachable.step Reachable.start (by decide))).1 _ hmem⟩

/-! ## Claim C9: DELETE removes the session for good -/

/-- Claim C9: after a DELETE on a live session completes (enter plus the
`finally`/`catch` exit path, which deletes the map entry whether the
transport's handling succeeded or threw), the session id is gone from the
modern session map; any subsequent POST, GET or DELETE carrying that id is
answered with HTTP 400; and along every further valid run the id is never
re-inserted (`randomUUID` never re-issues a used id). -/
theorem c9_delete_for_good (maxConc : Int) (st : GwState) (sid : Str) (s : Session)
    (now now' : Nat) (isInit : Bool) (fresh : Str)
    (h : Reachable maxConc st)
    (hl : lookupSession st.sessions sid = some s) :
    (let st1 := (stepEv maxConc st (.deleteEnter now (some sid))).2
     let st2 := (stepEv maxConc st1 (.deleteExit sid)).2
     lookupSession st2.sessions sid = none
     ∧ (stepEv maxConc st2 (.postEnter now' (some sid) isInit fresh)).1
         = some ⟨400, .jsonRpcError (-32000) badRequestMsg⟩
     ∧ (stepEv maxConc st2 (.getEnter now' (some sid))).1
         = some ⟨400, .text invalidSessionMsg⟩
     ∧ (stepEv maxConc st2 (.deleteEnter now' (some sid))).1
         = some ⟨400, .text invalidSessionMsg⟩
     ∧ ∀ st3, TraceFrom maxConc st2 st3 →
         lookupSession st3.sessions sid = none) := by
  intro st1 st2
  have hst1 : st1 = { st with
      sessions := updateSession st.sessions sid (bumpSession now),
      inflight := (sid, ReqKind.del) :: st.inflight } := by
    show (stepEv maxConc st (.deleteEnter now (some sid))).2 = _
    simp [stepEv, hl]
    rfl
  have hst2sessions : st2.sessions
      = removeSession (updateSession st.sessions sid (bumpSession now)) sid := by
    show ((stepEv maxConc st1 (.deleteExit sid)).2).sessions = _
    rw [hst1]
    simp [stepEv]
  have hgone : lookupSession st2.sessions sid = none := by
    rw [hst2sessions]
    exact lookupSession_removeSession_self _ sid
  have hused : sid ∈ st2.usedIds := by
    have h0 : sid ∈ st.usedIds :=
      (reachable_inv h).keysUsed sid (lookupSession_mem_keys hl)
    have h2 : st2.usedIds = st1.usedIds := by
      show ((stepEv maxConc st1 (.deleteExit sid)).2).usedIds = _
      simp [stepEv]
    have h1 : st1.usedIds = st.usedIds := by rw [hst1]
    rw [h2, h1]
    exact h0
  refine ⟨hgone, by simp [stepEv, hgone], by simp [stepEv, hgone],
    by simp [stepEv, hgone], ?_⟩
  intro st3 htr
  have hdead : sid ∉ sessionKeys st2 := by
    have hkeys := (lookupSession_eq_none_iff st2.sessions sid).1 hgone
    simpa [sessionKeys] using hkeys
  have := dead_trace htr sid hused hdead
  rw [lookupSession_eq_none_iff]
  exact this.2

/-- Witness for C9 at a concrete one-session state (reachable by one
initialize step). -/
theorem c9_witness :
    lookupSession c2WitState.sessions ("a".data) = some ⟨0, 0, 1⟩
    ∧ (let st1 := (stepEv 10 c2WitState (.deleteEnter 1 (some ("a".data)))).2
       let st2 := (stepEv 10 st1 (.deleteExit ("a".data))).2
       lookupSession st2.sessions ("a".data) = none) := by
  refine ⟨by decide, ?_⟩
  exact (c9_delete_for_good 10 c2WitState ("a".data) ⟨0, 0, 1⟩ 1 2 false ("f".data)
    (Reachable.step Reachable.start (by decide)) (by decide)).1

end MCPProxy
